import Mathlib

/-!
Verification of the audio mixdown and export pipeline of the
online-tracks-bouncer application.

Floating point numbers of the source are embedded as rationals `ℚ`
(all sample values and gain values occurring in the claims are exactly
representable), except for the dB conversion helpers which involve
`log10`/`pow` and are embedded over the reals `ℝ`.  Machine integers
are `ℕ`/`ℤ` with explicit wrap-around where it matters.  Byte streams
are `List ℕ` with every entry below 256.
-/

namespace Bouncer

/-- Truncation of a rational towards zero: the semantics JavaScript's
`ToInt16` abstract operation applies to the float value stored by
`DataView.setInt16` / assignment into an `Int16Array` (the values the
program stores are always in the representable range, so no wrap-around
occurs). -/
def ratTrunc (q : ℚ) : ℤ := if q < 0 then -(Rat.floor (-q)) else Rat.floor q

/-- Computable ceiling of a rational (`= ⌈q⌉`, see `ratCeil_eq`). -/
def ratCeil (q : ℚ) : ℤ := -(Rat.floor (-q))

/-- `floatTo16BitPCM` (audioService), per sample:
`const s = Math.max(-1, Math.min(1, input[i]));`
`output.setInt16(offset, s < 0 ? s * 0x8000 : s * 0x7FFF, true);` -/
def pcm16Sample (s : ℚ) : ℤ :=
  let c := max (-1) (min 1 s)
  ratTrunc (if c < 0 then c * 0x8000 else c * 0x7FFF)

/-- Little-endian byte pair written by `setInt16 (…, true)`:
two's complement, low byte first. -/
def int16le (i : ℤ) : List ℕ :=
  let m := (i % 65536).toNat
  [m % 256, m / 256]

/-- `floatTo16BitPCM(view, 44, samples)`: converts each float sample and
writes consecutive little-endian 16-bit words. -/
def floatTo16BitPCM (input : List ℚ) : List ℕ :=
  input.flatMap fun s => int16le (pcm16Sample s)

/-- Modelled from the spec: decoding the PCM container's data back to
floats (the host decoder behind `decodeAudioData` is not part of the
repository sources).  Each little-endian byte pair is read as a
two's-complement 16-bit integer and scaled by `1/32768` (one LSB of the
16-bit range). -/
def pcmDecode16 : List ℕ → List ℚ
  | lo :: hi :: rest =>
    (let v : ℤ := (lo : ℤ) + 256 * (hi : ℤ)
     ((if v < 32768 then v else v - 65536 : ℤ) : ℚ) / 32768) :: pcmDecode16 rest
  | _ => []

/-- Decoded audio data: one float sample list per channel, as produced by
the host decoder (the Web Audio `AudioBuffer`).  All channels of one
buffer have the same length (frame count). -/
structure AudioBuffer where
  sampleRate : ℕ
  channels : List (List ℚ)
deriving DecidableEq

/-- The Web Audio `AudioBuffer.length`: frame count. -/
def AudioBuffer.numFrames (b : AudioBuffer) : ℕ := (b.channels.headD []).length

/-- The Web Audio `AudioBuffer.duration = length / sampleRate` (seconds). -/
def AudioBuffer.duration (b : AudioBuffer) : ℚ := (b.numFrames : ℚ) / (b.sampleRate : ℚ)

/-- `AudioTrack` (types.ts): `volume` is the linear gain in [0,1],
`duration` in seconds; `audioBuffer` is the decode cache, `none` until
`handleTrackReady` fills it. -/
structure AudioTrack where
  id : ℕ
  volume : ℚ
  isMuted : Bool
  isSolo : Bool
  duration : ℚ
  audioBuffer : Option AudioBuffer
deriving DecidableEq

/-- `interleave(inputL, inputR)`: channel-minor order (L,R,L,R,…).  The
source's while loop reads both arrays at one running input index until
`inputL.length + inputR.length` values are written; it is only applied to
the two channels of a rendered stereo buffer, which have equal lengths —
the case this definition models. -/
def interleave (inputL inputR : List ℚ) : List ℚ :=
  ((inputL.zip inputR).map fun p => [p.1, p.2]).flatten

/-- Little-endian bytes of a 16-bit unsigned header field
(`view.setUint16 (…, true)`). -/
def u16le (n : ℕ) : List ℕ := [n % 256, n / 256 % 256]

/-- Little-endian bytes of a 32-bit unsigned header field
(`view.setUint32 (…, true)`). -/
def u32le (n : ℕ) : List ℕ :=
  [n % 256, n / 256 % 256, n / 65536 % 256, n / 16777216 % 256]

/-- `writeString(view, 0, 'RIFF')`: ASCII codes of "RIFF". -/
def riffTag : List ℕ := [82, 73, 70, 70]

/-- ASCII codes of "WAVE". -/
def waveTag : List ℕ := [87, 65, 86, 69]

/-- ASCII codes of "fmt ". -/
def fmtTag : List ℕ := [102, 109, 116, 32]

/-- ASCII codes of "data". -/
def dataTag : List ℕ := [100, 97, 116, 97]

/-- `encodeWAV(samples, format, sampleRate, numChannels, bitDepth)` in the
16-bit PCM configuration (`format = 1`, `bitDepth = 16`), the only one the
program exercises: `bounceTracks` calls `audioBufferToWav` without an
options argument, so `opt?.float32` is undefined.  The 32-bit float
branch (`writeFloat32`) is never taken and is not modelled. -/
def encodeWAV (samples : List ℚ) (sampleRate numChannels : ℕ) : List ℕ :=
  riffTag ++ u32le (36 + samples.length * 2) ++ waveTag ++
  fmtTag ++ u32le 16 ++ u16le 1 ++ u16le numChannels ++ u32le sampleRate ++
  u32le (sampleRate * (numChannels * 2)) ++ u16le (numChannels * 2) ++ u16le 16 ++
  dataTag ++ u32le (samples.length * 2) ++
  floatTo16BitPCM samples

/-- `audioBufferToWav(buffer)` as called by `bounceTracks` (no options):
a stereo buffer is interleaved, otherwise channel 0 is written as is. -/
def audioBufferToWav (buffer : AudioBuffer) : List ℕ :=
  let numChannels := buffer.channels.length
  let result :=
    if numChannels = 2 then
      interleave (buffer.channels.getD 0 []) (buffer.channels.getD 1 [])
    else buffer.channels.getD 0 []
  encodeWAV result buffer.sampleRate numChannels

/-- The Blob worker's float→int16 conversion (WORKER_CODE):
`let valL = Math.max(-1, Math.min(1, samplesL[i]));`
`samplesL_int16[i] = valL < 0 ? valL * 0x8000 : valL * 0x7FFF;`
(assignment into an `Int16Array` truncates toward zero). -/
def workerInt16Sample (s : ℚ) : ℤ :=
  let v := max (-1) (min 1 s)
  ratTrunc (if v < 0 then v * 0x8000 else v * 0x7FFF)

/-- The worker's per-channel conversion, applied to both `samplesL` and
`samplesR`.  (`audioBufferToMp3` always posts a non-null `samplesR`, so
the worker's `samplesR ? … : valL` fallback never fires.) -/
def workerInt16Channel (samples : List ℚ) : List ℤ := samples.map workerInt16Sample

/-- `audioBufferToMp3`'s channel preparation:
`samplesL = buffer.getChannelData(0)`;
`samplesR = channels > 1 ? buffer.getChannelData(1) : new Float32Array(samplesL)`
— a mono source is duplicated into the second encoder input. -/
def audioBufferToMp3Inputs (buffer : AudioBuffer) : List ℚ × List ℚ :=
  let samplesL := buffer.channels.getD 0 []
  let samplesR :=
    if buffer.channels.length > 1 then buffer.channels.getD 1 [] else samplesL
  (samplesL, samplesR)

/-- The conversion the spec's words ascribe to the lossy path: "converts
each channel's float samples to 16-bit signed integers using symmetric
rounding": clamp to [-1,1], scale both signs by the same factor 32767,
round to the nearest integer. -/
def symmetricRound16 (s : ℚ) : ℤ := round (max (-1) (min 1 s) * 32767)

/-- The sample buffer `b` contributes at output channel `c`, frame `n` of
the stereo offline context: a mono buffer is up-mixed dual-mono, a
stereo buffer feeds the matching channel; past its end a source is
silent. -/
def bufferSampleAt (b : AudioBuffer) (c n : ℕ) : ℚ :=
  if b.channels.length = 1 then (b.channels.headD []).getD n 0
  else (b.channels.getD c []).getD n 0

/-- Modelled from the spec: the summation performed by the Web Audio
`OfflineAudioContext` graph that `bounceTracks` builds (source →
per-track gain → master gain → destination) is host-platform code, not
part of the repository sources.  Spec §4.1: each active track adds
`trackSample[n] * track.gain` to every output channel for every `n`
inside its buffer, shorter tracks leave silence, the sum is multiplied
by `masterGain`, and no clipping is applied; mono tracks are dual-mono.
Sources are assumed to be at the context rate (sample-rate conversion is
a spec non-goal). -/
def renderMix (buffers : List (AudioBuffer × ℚ)) (masterVolume : ℚ) (len : ℕ) : AudioBuffer :=
  { sampleRate := 44100
    channels := [0, 1].map fun c =>
      (List.range len).map fun n =>
        masterVolume * buffers.foldl (fun acc p => acc + p.2 * bufferSampleAt p.1 c n) 0 }

/-- `bounceTracks(tracks, masterVolume, format)` up to its rendering step
(steps 1–4 of the source: filter the muted tracks out, fail when nothing
is active, compute the max duration, render offline at 44100 Hz); step 5
passes the rendered buffer on to `audioBufferToWav` or
`audioBufferToMp3`.  Active tracks are taken with their decode cache
(`track.audioBuffer`); the source's `if (buffer)` guard after
`loadAudioBuffer` is mirrored by `filterMap`. -/
def bounceRender (tracks : List AudioTrack) (masterVolume : ℚ) : Except String AudioBuffer :=
  let activeTracks := tracks.filter fun t => !t.isMuted
  if activeTracks.isEmpty then
    .error "No tracks to export (or all are muted)."
  else
    let buffers := activeTracks.filterMap fun t => t.audioBuffer.map fun b => (b, t.volume)
    let maxDuration := buffers.foldl (fun m p => if p.1.duration > m then p.1.duration else m) 0
    let len := (ratCeil (maxDuration * 44100)).toNat
    .ok (renderMix buffers masterVolume len)

/-- `handleSoloToggle` (App): flips the solo flag of the addressed track,
then overwrites every track's mute flag — when any track is soloed each
track gets `isMuted = !isSolo`, otherwise every mute flag is cleared. -/
def handleSoloToggle (id : ℕ) (tracks : List AudioTrack) : List AudioTrack :=
  match tracks.find? fun t => t.id == id with
  | none => tracks
  | some toggledTrack =>
    let newSoloState := !toggledTrack.isSolo
    let updatedTracks := tracks.map fun t =>
      if t.id == id then { t with isSolo := newSoloState } else t
    let isAnySolo := updatedTracks.any fun t => t.isSolo
    updatedTracks.map fun t =>
      if isAnySolo then { t with isMuted := !t.isSolo }
      else { t with isMuted := false }

/-- App-level state relevant to the playback-duration claims: the track
list, the `maxDurationRef` ref and `playback.duration`. -/
structure AppState where
  tracks : List AudioTrack
  maxDurationRef : ℚ
  playbackDuration : ℚ
deriving DecidableEq

/-- `addFiles` for one file: the new track starts with volume 0.8,
unmuted, unsoloed, duration 0 and no decoded buffer. -/
def addTrack (id : ℕ) (s : AppState) : AppState :=
  { s with tracks := s.tracks ++
      [{ id := id, volume := 8/10, isMuted := false, isSolo := false,
         duration := 0, audioBuffer := none }] }

/-- `handleTrackReady(id, ws, buffer)` (App): caches the decoded buffer
and its duration on the matching track; bumps `maxDurationRef` and
`playback.duration` only when the new duration exceeds the ref (a
ratchet — nothing ever lowers them).  Track ids are unique (uuid), so at
most one track matches. -/
def handleTrackReady (id : ℕ) (b : AudioBuffer) (s : AppState) : AppState :=
  let hit := s.tracks.any fun t => t.id == id
  let newTracks := s.tracks.map fun t =>
    if t.id == id then { t with audioBuffer := some b, duration := b.duration } else t
  if hit && decide (b.duration > s.maxDurationRef) then
    { tracks := newTracks, maxDurationRef := b.duration, playbackDuration := b.duration }
  else
    { s with tracks := newTracks }

/-- `handleRemoveTrack(id)` (App): drops the track; neither
`maxDurationRef` nor `playback.duration` is touched. -/
def handleRemoveTrack (id : ℕ) (s : AppState) : AppState :=
  { s with tracks := s.tracks.filter fun t => t.id != id }

/-- Maximum duration over a track list
(`Math.max(...tracks.map(t => t.duration || 0))`; durations are
nonnegative, so folding from 0 agrees with the spread form). -/
def maxTrackDuration (tracks : List AudioTrack) : ℚ :=
  tracks.foldl (fun m t => max m t.duration) 0

/-- One bucket's bounded-cost peak (`generatePeaks` inner loop): up to 10
evenly spaced samples of the bucket's window, maximum absolute value
among those in range (`Math.floor((j/10)*step)` is the exact
`j * step / 10` on these integer operands). -/
def bucketPeak (data : List ℚ) (step i : ℕ) : ℚ :=
  (List.range 10).foldl (fun m j =>
    let idx := i * step + j * step / 10
    if idx < data.length then max m |data.getD idx 0| else m) 0

/-- The `tracks.forEach` body of `generatePeaks`: a track that is decoded
and unmuted populates its first `floor(width * duration/maxDur)` buckets
(`activePixels`) with `peaks[i] = max(peaks[i], bucketPeak * volume)`,
where `step = Math.ceil(data.length / width)`; other tracks contribute
nothing. -/
def generatePeaksTrackStep (width : ℕ) (maxDur : ℚ) (peaks : List ℚ)
    (track : AudioTrack) : List ℚ :=
  match track.audioBuffer, track.isMuted with
  | some buf, false =>
    let data := buf.channels.getD 0 []
    let step := (ratCeil ((data.length : ℚ) / (width : ℚ))).toNat
    let activePixels := (Rat.floor ((width : ℚ) * (track.duration / maxDur))).toNat
    (List.range activePixels).foldl (fun ps i =>
      ps.set i (max (ps.getD i 0) (bucketPeak data step i * track.volume))) peaks
  | _, _ => peaks

/-- `generatePeaks` (GlobalTimeline): `none` when no summary is produced
(an empty track set clears the summary to null; `maxDur === 0` returns
early without publishing).  Otherwise, starting from `width` zero
buckets, each unmuted decoded track layers its bucket peaks in by
maximum. -/
def generatePeaks (tracks : List AudioTrack) (width : ℕ) : Option (List ℚ) :=
  if tracks.isEmpty then none
  else
    let maxDur := maxTrackDuration tracks
    if maxDur = 0 then none
    else some (tracks.foldl (generatePeaksTrackStep width maxDur) (List.replicate width 0))

/-- One tick of the peak-hold logic in `drawChannel` (MasterMeter):
`renderVal = Math.min(val * 4, 1)`; the peak is raised to `renderVal`
when `renderVal >= peak`, otherwise decays by 0.005, and is floored at
0. -/
def peakStep (val peak : ℚ) : ℚ :=
  let renderVal := min (val * 4) 1
  let p := if renderVal ≥ peak then renderVal else peak - 5/1000
  if p < 0 then 0 else p

/-- `getRMS` squared (MasterMeter): mean of `((byte - 128)/128)²` over
the analyser window.  The RMS itself is its square root; it is `0`
exactly on a silent window (all bytes 128), the case the claims feed. -/
def getRMSSq (data : List ℕ) : ℚ :=
  (data.foldl
    (fun (sum : ℚ) (b : ℕ) => sum + (((b : ℚ) - 128) / 128) * (((b : ℚ) - 128) / 128)) 0)
    / (data.length : ℚ)

/-- `getDbValue` (TrackRow): `'-inf'` (here `none`) at or below the 1e-4
threshold, else `(20 * Math.log10(vol)).toFixed(1)` — rounding to one
decimal, ties upward (Mathlib's `round` is half-up, matching
`toFixed`). -/
noncomputable def getDbValue (vol : ℝ) : Option ℝ :=
  if vol ≤ 1/10000 then none
  else some (((round ((20 * Real.logb 10 vol) * 10) : ℤ) : ℝ) / 10)

/-- `commitDbChange` (TrackRow) applied to a displayed dB value: `'-inf'`
commits exactly 0; a number is clamped to at most 0 dB, converted by
`Math.pow(10, dB / 20)` and clamped to [0, 1]. -/
noncomputable def commitDbChange : Option ℝ → ℝ
  | none => 0
  | some db => max 0 (min 1 ((10 : ℝ) ^ (min db 0 / 20)))

/-- A concrete session: two tracks are added, both decode (10 s and 4 s
at 1 Hz for a compact witness), then the longer one is removed. -/
def c10Final : AppState :=
  handleRemoveTrack 1
    (handleTrackReady 2 ⟨1, [List.replicate 4 0]⟩
      (handleTrackReady 1 ⟨1, [List.replicate 10 0]⟩
        (addTrack 2 (addTrack 1 ⟨[], 0, 0⟩))))

/-- The maximum buffer duration over exactly the unmuted tracks (muted
tracks excluded), as the claims state it. -/
def unmutedMaxDuration (tracks : List AudioTrack) : ℚ :=
  ((tracks.filter fun t => !t.isMuted).filterMap fun t => t.audioBuffer).foldl
    (fun m b => max m b.duration) 0

/-- Concrete two-track session for the C3 witness: track 1 carries a
decoded two-frame mono buffer, track 2 is still undecoded; nothing is
muted or soloed. -/
def c3Tracks : List AudioTrack :=
  [⟨1, 1/2, false, false, 2/44100, some ⟨44100, [[1, -1]]⟩⟩,
   ⟨2, 1, false, false, 1, none⟩]

example : pcm16Sample 1 = 32767 := by with_unfolding_all decide
example : pcm16Sample (-1) = -32768 := by with_unfolding_all decide
example : floatTo16BitPCM [1] = [255, 127] := by with_unfolding_all decide
example : floatTo16BitPCM [-1] = [0, 128] := by with_unfolding_all decide
example : pcmDecode16 [0, 128] = [-1] := by with_unfolding_all decide
example : interleave [1, 2] [3, 4] = [1, 3, 2, 4] := by with_unfolding_all decide

/-! ### Bridges between the executable and the mathematical forms -/

theorem ratFloor_eq (q : ℚ) : Rat.floor q = ⌊q⌋ := by
  rw [Rat.floor_def', Rat.floor_def]

theorem ratCeil_eq (q : ℚ) : ratCeil q = ⌈q⌉ := by
  rw [ratCeil, ratFloor_eq, Int.floor_neg, neg_neg]

theorem ratTrunc_of_nonneg {q : ℚ} (h : 0 ≤ q) : ratTrunc q = ⌊q⌋ := by
  rw [ratTrunc, if_neg (not_lt.mpr h), ratFloor_eq]

theorem ratTrunc_of_neg {q : ℚ} (h : q < 0) : ratTrunc q = ⌈q⌉ := by
  rw [ratTrunc, if_pos h, ratFloor_eq, Int.floor_neg, neg_neg]

theorem AudioBuffer.duration_nonneg (b : AudioBuffer) : 0 ≤ b.duration :=
  div_nonneg (Nat.cast_nonneg _) (Nat.cast_nonneg _)

/-! ### C2: the no-active-tracks failure -/

/-- C2: `bounceTracks` fails with the no-active-tracks error exactly when
the set of tracks with `isMuted = false` is empty — for every track list,
including non-empty all-muted lists; the failure happens before any
rendering or encoding (no artifact value is produced), and with at least
one unmuted track this error is never raised. -/
theorem bounceRender_error_iff (tracks : List AudioTrack) (masterVolume : ℚ) :
    bounceRender tracks masterVolume = .error "No tracks to export (or all are muted)."
      ↔ tracks.filter (fun t => !t.isMuted) = [] := by
  unfold bounceRender
  by_cases h : (tracks.filter fun t => !t.isMuted).isEmpty
  · simp [h, List.isEmpty_iff.mp h]
  · simp only [h, if_false, Bool.false_eq_true]
    constructor
    · intro hcontra
      exact absurd hcontra (by simp)
    · intro hnil
      exact absurd (List.isEmpty_iff.mpr hnil) (by simp [h])

/-! ### C8: the peak-hold meter -/

/-- C8: the per-channel peak-hold evolves each tick with
`renderVal = min(rms * 4, 1)`: it jumps to `renderVal` when
`renderVal ≥ peak` and otherwise decays by exactly 0.005, floored at 0;
it never increases on a tick whose `renderVal` is below the current
hold; and on silent input (zero RMS, e.g. an all-128 byte window, whose
mean square is 0) it decays by 0.005 per tick until reaching 0. -/
theorem peakStep_spec :
    (∀ val peak : ℚ, 0 ≤ val → 0 ≤ peak →
      (peakStep val peak =
        if peak ≤ min (val * 4) 1 then min (val * 4) 1 else max (peak - 5/1000) 0) ∧
      (min (val * 4) 1 < peak → peakStep val peak ≤ peak)) ∧
    (∀ (peak : ℚ) (n : ℕ), 0 ≤ peak →
      (peakStep 0)^[n] peak = max (peak - n * (5/1000)) 0) ∧
    (∀ n : ℕ, getRMSSq (List.replicate n 128) = 0) := by
  have hstep : ∀ val peak : ℚ, 0 ≤ val → 0 ≤ peak →
      peakStep val peak =
        if peak ≤ min (val * 4) 1 then min (val * 4) 1 else max (peak - 5/1000) 0 := by
    intro val peak hval hpeak
    have hrv : (0 : ℚ) ≤ min (val * 4) 1 :=
      le_min (by positivity) one_pos.le
    unfold peakStep
    dsimp only
    by_cases h : peak ≤ min (val * 4) 1
    · rw [if_pos (show min (val * 4) 1 ≥ peak from h), if_pos h, if_neg (not_lt.mpr hrv)]
    · rw [if_neg (show ¬ min (val * 4) 1 ≥ peak from h), if_neg h]
      by_cases h2 : peak - 5/1000 < 0
      · rw [if_pos h2, max_eq_right h2.le]
      · rw [if_neg h2, max_eq_left (not_lt.mp h2)]
  have hkey : ∀ a c : ℚ, 0 ≤ c →
      max (max (a - 5/1000) 0 - c) 0 = max (a - (5/1000 + c)) 0 := by
    intro a c hc
    rcases le_or_lt (5/1000) a with h | h
    · rw [show max (a - 5/1000) 0 = a - 5/1000 from max_eq_left (by linarith),
        show a - 5/1000 - c = a - (5/1000 + c) by ring]
    · rw [show max (a - 5/1000) 0 = 0 from max_eq_right (by linarith),
        show max ((0:ℚ) - c) 0 = 0 from max_eq_right (by linarith)]
      exact (max_eq_right (by linarith)).symm
  refine ⟨fun val peak hval hpeak => ⟨hstep val peak hval hpeak, ?_⟩, ?_, ?_⟩
  · intro hlt
    rw [hstep val peak hval hpeak, if_neg (not_le.mpr hlt)]
    exact max_le (by linarith) hpeak
  · intro peak n hpeak
    induction n generalizing peak with
    | zero => simpa using (max_eq_left hpeak).symm
    | succ n ih =>
      have h1 : (peakStep 0)^[n + 1] peak = (peakStep 0)^[n] (peakStep 0 peak) :=
        Function.iterate_succ_apply _ _ _
      have h2 : peakStep 0 peak = max (peak - 5/1000) 0 := by
        rw [hstep 0 peak le_rfl hpeak]
        by_cases h : peak ≤ min (0 * 4) 1
        · have hp0 : peak = 0 :=
            le_antisymm (h.trans (by norm_num)) hpeak
          rw [if_pos h, hp0]
          norm_num
        · rw [if_neg h]
      rw [h1, h2, ih _ (le_max_right _ _),
        hkey peak (n * (5/1000)) (by positivity)]
      congr 1
      push_cast
      ring
  · intro n
    have hfold : ∀ (m : ℕ) (acc : ℚ),
        (List.replicate m (128 : ℕ)).foldl
          (fun (sum : ℚ) (b : ℕ) =>
            sum + (((b : ℚ) - 128) / 128) * (((b : ℚ) - 128) / 128)) acc = acc := by
      intro m
      induction m with
      | zero => intro acc; rfl
      | succ m ih =>
        intro acc
        rw [List.replicate_succ, List.foldl_cons,
          show acc + ((((128 : ℕ) : ℚ) - 128) / 128) * ((((128 : ℕ) : ℚ) - 128) / 128) = acc
            by norm_num]
        exact ih acc
    unfold getRMSSq
    rw [hfold n 0, zero_div]

/-! ### C10: the playback-duration ratchet -/

/-- C10 counterexample: the reported playback duration is NOT recomputed
from the current track set on every mutation.  After removing the
longest (10 s) track, `playback.duration` still reads 10 while the
maximum duration over the remaining tracks is 4. -/
theorem c10_duration_counterexample :
    c10Final.playbackDuration ≠ maxTrackDuration c10Final.tracks ∧
    c10Final.playbackDuration = 10 ∧ maxTrackDuration c10Final.tracks = 4 := by
  refine ⟨?_, ?_, ?_⟩ <;> with_unfolding_all decide

/-- C10 amended: the total playback duration is driven by the
monotonically-increasing ratchet `maxDurationRef` — `handleTrackReady`
never lowers the ref, and `handleRemoveTrack` changes neither the ref
nor the reported duration — so after removing the longest track the
reported duration stays at the stale previous maximum (10 in the
concrete scenario) instead of the maximum of the remaining tracks (4). -/
theorem c10_duration_ratchet :
    (∀ (id : ℕ) (s : AppState),
      (handleRemoveTrack id s).playbackDuration = s.playbackDuration ∧
      (handleRemoveTrack id s).maxDurationRef = s.maxDurationRef) ∧
    (∀ (id : ℕ) (b : AudioBuffer) (s : AppState),
      s.maxDurationRef ≤ (handleTrackReady id b s).maxDurationRef) ∧
    c10Final.playbackDuration = 10 ∧ maxTrackDuration c10Final.tracks = 4 := by
  refine ⟨fun id s => ⟨rfl, rfl⟩, fun id b s => ?_, ?_, ?_⟩
  · unfold handleTrackReady
    dsimp only
    by_cases h : (s.tracks.any fun t => t.id == id) && decide (b.duration > s.maxDurationRef)
    · rw [if_pos h]
      exact le_of_lt (of_decide_eq_true (Bool.and_elim_right h))
    · rw [if_neg h]
  · with_unfolding_all decide
  · with_unfolding_all decide

/-! ### C9: the waveform summarizer -/

/-- Folding bucket updates `ps[i] ← max ps[i] v` over any index list
keeps the summary length fixed and every entry nonnegative. -/
theorem bucketFold_inv (g : ℕ → ℚ) :
    ∀ (l : List ℕ) (ps : List ℚ), (∀ x ∈ ps, 0 ≤ x) →
      (l.foldl (fun ps i => ps.set i (max (ps.getD i 0) (g i))) ps).length = ps.length ∧
      ∀ x ∈ l.foldl (fun ps i => ps.set i (max (ps.getD i 0) (g i))) ps, 0 ≤ x
  | [], _, h => ⟨rfl, h⟩
  | i :: l, ps, h => by
    have h0 : 0 ≤ ps.getD i 0 := by
      rcases lt_or_ge i ps.length with hi | hi
      · rw [List.getD_eq_getElem ps 0 hi]
        exact h _ (List.getElem_mem hi)
      · rw [List.getD_eq_default ps 0 hi]
    have hset : ∀ x ∈ ps.set i (max (ps.getD i 0) (g i)), 0 ≤ x := by
      intro x hx
      rcases List.mem_or_eq_of_mem_set hx with h1 | rfl
      · exact h x h1
      · exact le_max_of_le_left h0
    have ih := bucketFold_inv g l (ps.set i (max (ps.getD i 0) (g i))) hset
    exact ⟨by rw [List.foldl_cons, ih.1, List.length_set], by rw [List.foldl_cons]; exact ih.2⟩

/-- The per-track fold of `generatePeaks` keeps the summary length fixed
and every entry nonnegative. -/
theorem generatePeaksFold_inv (width : ℕ) (maxDur : ℚ) :
    ∀ (tracks : List AudioTrack) (ps : List ℚ), (∀ x ∈ ps, 0 ≤ x) →
      (tracks.foldl (generatePeaksTrackStep width maxDur) ps).length = ps.length ∧
      ∀ x ∈ tracks.foldl (generatePeaksTrackStep width maxDur) ps, 0 ≤ x
  | [], _, h => ⟨rfl, h⟩
  | t :: l, ps, h => by
    have hstep : (generatePeaksTrackStep width maxDur ps t).length = ps.length ∧
        ∀ x ∈ generatePeaksTrackStep width maxDur ps t, 0 ≤ x := by
      cases hb : t.audioBuffer with
      | none =>
        cases hm : t.isMuted <;> simp only [generatePeaksTrackStep, hb, hm] <;> exact ⟨trivial, h⟩
      | some buf =>
        cases hm : t.isMuted with
        | false =>
          simp only [generatePeaksTrackStep, hb, hm]
          exact bucketFold_inv _ _ ps h
        | true =>
          simp only [generatePeaksTrackStep, hb, hm]
          exact ⟨trivial, h⟩
    have ih := generatePeaksFold_inv width maxDur l (generatePeaksTrackStep width maxDur ps t)
      hstep.2
    exact ⟨by rw [List.foldl_cons, ih.1, hstep.1], by rw [List.foldl_cons]; exact ih.2⟩

/-- C9: whenever the waveform summarizer publishes a summary for bucket
count `width` (it publishes none for an empty track set or a zero
maximum duration), the summary has length exactly `width` and every
entry is ≥ 0 (and, values being rationals here, finite); buckets no
track populates stay 0. -/
theorem generatePeaks_spec (tracks : List AudioTrack) (width : ℕ) (ps : List ℚ)
    (h : generatePeaks tracks width = some ps) :
    ps.length = width ∧ ∀ x ∈ ps, 0 ≤ x := by
  unfold generatePeaks at h
  by_cases h1 : tracks.isEmpty
  · rw [if_pos h1] at h
    exact absurd h (by simp)
  · rw [if_neg h1] at h
    dsimp only at h
    by_cases h2 : maxTrackDuration tracks = 0
    · rw [if_pos h2] at h
      exact absurd h (by simp)
    · rw [if_neg h2] at h
      have hinv := generatePeaksFold_inv width (maxTrackDuration tracks) tracks
        (List.replicate width 0)
        (fun x hx => by rw [List.eq_of_mem_replicate hx])
      have hps := Option.some.inj h
      rw [← hps]
      exact ⟨by rw [hinv.1, List.length_replicate], hinv.2⟩

/-- C9 witness: a one-track set (duration 1, still undecoded) at bucket
count 2 publishes the summary `[0, 0]`, of length 2 with nonnegative
entries. -/
theorem generatePeaks_witness :
    (([0, 0] : List ℚ).length = 2 ∧ ∀ x ∈ ([0, 0] : List ℚ), 0 ≤ x) :=
  generatePeaks_spec [⟨0, 1, false, false, 1, none⟩] 2 [0, 0] (by with_unfolding_all decide)

/-! ### C1: rendered-mix length -/

/-- The running-maximum loop of `bounceTracks`
(`if (buffer.duration > maxDuration) maxDuration = buffer.duration`)
computes the same value as a `max`-fold over the buffers alone. -/
theorem bounce_maxDuration_eq (l : List AudioTrack) :
    ∀ m : ℚ,
      (l.filterMap fun t => t.audioBuffer.map fun b => (b, t.volume)).foldl
        (fun m p => if p.1.duration > m then p.1.duration else m) m
      = (l.filterMap fun t => t.audioBuffer).foldl (fun m b => max m b.duration) m := by
  induction l with
  | nil => intro m; rfl
  | cons t l ih =>
    intro m
    cases hb : t.audioBuffer with
    | none => simp only [List.filterMap_cons, hb, Option.map_none']; exact ih m
    | some b =>
      simp only [List.filterMap_cons, hb, Option.map_some', List.foldl_cons]
      rw [ih]
      congr 1
      rcases lt_or_ge m b.duration with h | h
      · rw [if_pos h, max_eq_right h.le]
      · rw [if_neg (not_lt.mpr h), max_eq_left h]

/-- C1: for every export whose track list has at least one unmuted track
(all tracks carrying their decode cache), the rendered mix has exactly 2
channel buffers and each has length `ceil(maxDuration * 44100)` where
`maxDuration` is the maximum buffer duration over exactly the unmuted
tracks — so muting the longest track changes the length to the one
determined by the longest remaining unmuted track (instantiate the same
statement at the list with that track muted). -/
theorem bounceRender_length (tracks : List AudioTrack) (masterVolume : ℚ)
    (hactive : tracks.filter (fun t => !t.isMuted) ≠ [])
    (_hbuf : ∀ t ∈ tracks, t.isMuted = false → t.audioBuffer.isSome) :
    ∃ mix, bounceRender tracks masterVolume = .ok mix ∧
      mix.channels.length = 2 ∧
      ∀ ch ∈ mix.channels, ch.length = (⌈unmutedMaxDuration tracks * 44100⌉).toNat := by
  unfold bounceRender
  rw [if_neg (by simpa [List.isEmpty_iff] using hactive)]
  refine ⟨_, rfl, by simp [renderMix], ?_⟩
  intro ch hch
  rw [renderMix] at hch
  simp only [List.mem_map] at hch
  obtain ⟨c, _, rfl⟩ := hch
  rw [List.length_map, List.length_range]
  rw [bounce_maxDuration_eq, ratCeil_eq]
  rfl

/-- C1 witness: one unmuted cached track of 5 frames at 44100 Hz renders
a stereo mix of ⌈(5/44100)·44100⌉ = 5 frames per channel. -/
theorem bounceRender_length_witness :
    ∃ mix, bounceRender [⟨7, 1, false, false, 5/44100,
        some ⟨44100, [List.replicate 5 (1/2)]⟩⟩] 1 = .ok mix ∧
      mix.channels.length = 2 ∧
      ∀ ch ∈ mix.channels,
        ch.length = (⌈unmutedMaxDuration [⟨7, 1, false, false, 5/44100,
          some ⟨44100, [List.replicate 5 (1/2)]⟩⟩] * 44100⌉).toNat :=
  bounceRender_length _ 1 (by with_unfolding_all decide)
    (by with_unfolding_all decide)

/-! ### C6: the lossy path's sample conversion -/

/-- C6 counterexample: the worker does NOT use symmetric rounding.  At
the full-scale negative sample `-1` the worker produces
`-1 * 0x8000 = -32768`, while the spec's symmetric scaling by 32767
yields `-32767`. -/
theorem workerInt16_not_symmetric :
    workerInt16Sample (-1) ≠ symmetricRound16 (-1) ∧
    workerInt16Sample (-1) = -32768 ∧ symmetricRound16 (-1) = -32767 := by
  have h1 : workerInt16Sample (-1) = -32768 := by with_unfolding_all decide
  have h2 : symmetricRound16 (-1) = -32767 := by
    unfold symmetricRound16
    rw [show max (-1 : ℚ) (min 1 (-1)) * 32767 = ((-32767 : ℤ) : ℚ) by norm_num,
      round_intCast]
  exact ⟨by rw [h1, h2]; decide, h1, h2⟩

/-- C6 amended: the lossy (MP3) path converts each channel's float
samples with exactly the lossless path's conversion — clamp to [-1,1],
then scale negative values by 0x8000 and non-negative ones by 0x7FFF,
truncating toward zero (not symmetric rounding) — and a mono source is
duplicated into the second encoder input, so both int16 channels carry
the same values. -/
theorem audioBufferToMp3_conversion :
    (∀ s : ℚ, workerInt16Sample s = pcm16Sample s) ∧
    (∀ buffer : AudioBuffer, buffer.channels.length = 1 →
      (audioBufferToMp3Inputs buffer).1 = (audioBufferToMp3Inputs buffer).2 ∧
      workerInt16Channel (audioBufferToMp3Inputs buffer).1 =
        workerInt16Channel (audioBufferToMp3Inputs buffer).2) := by
  refine ⟨fun s => rfl, fun buffer h => ?_⟩
  have hdup : (audioBufferToMp3Inputs buffer).1 = (audioBufferToMp3Inputs buffer).2 := by
    unfold audioBufferToMp3Inputs
    dsimp only
    rw [if_neg (by omega)]
  exact ⟨hdup, by rw [hdup]⟩

/-- C6 witness: a concrete mono buffer is duplicated, and both encoder
inputs convert identically. -/
theorem audioBufferToMp3_conversion_witness :
    (audioBufferToMp3Inputs ⟨44100, [[1, -1]]⟩).1 =
      (audioBufferToMp3Inputs ⟨44100, [[1, -1]]⟩).2 ∧
    workerInt16Channel (audioBufferToMp3Inputs ⟨44100, [[1, -1]]⟩).1 =
      workerInt16Channel (audioBufferToMp3Inputs ⟨44100, [[1, -1]]⟩).2 :=
  audioBufferToMp3_conversion.2 ⟨44100, [[1, -1]]⟩ (by with_unfolding_all decide)

/-! ### C4: 16-bit PCM quantization and round trip -/

/-- The encoder's per-sample map in mathematical form: ceiling of
`clamp * 0x8000` for negative clamped values (truncation toward zero of
a negative number), floor of `clamp * 0x7FFF` otherwise. -/
theorem pcm16Sample_char (s : ℚ) :
    pcm16Sample s =
      if max (-1) (min 1 s) < 0 then ⌈max (-1) (min 1 s) * 0x8000⌉
      else ⌊max (-1) (min 1 s) * 0x7FFF⌋ := by
  unfold pcm16Sample
  dsimp only
  rcases lt_or_ge (max (-1) (min 1 s)) 0 with h | h
  · rw [if_pos h, if_pos h,
      ratTrunc_of_neg (mul_neg_of_neg_of_pos h (by norm_num))]
  · rw [if_neg (not_lt.mpr h), if_neg (not_lt.mpr h),
      ratTrunc_of_nonneg (mul_nonneg h (by norm_num))]

/-- The quantized value always fits the signed 16-bit range. -/
theorem pcm16Sample_range (s : ℚ) :
    -32768 ≤ pcm16Sample s ∧ pcm16Sample s ≤ 32767 := by
  have hlo : (-1 : ℚ) ≤ max (-1) (min 1 s) := le_max_left _ _
  have hhi : max (-1) (min 1 s) ≤ 1 := max_le (by norm_num) (min_le_left _ _)
  rw [pcm16Sample_char]
  rcases lt_or_ge (max (-1) (min 1 s)) 0 with h | h
  · rw [if_pos h]
    constructor
    · have h1 : (-32768 : ℚ) ≤ max (-1) (min 1 s) * 0x8000 := by nlinarith
      have h2 := Int.le_ceil (max (-1) (min 1 s) * 0x8000)
      exact_mod_cast h1.trans h2
    · have h1 : ⌈max (-1) (min 1 s) * 0x8000⌉ ≤ 0 :=
        Int.ceil_le.mpr (by push_cast; nlinarith)
      omega
  · rw [if_neg (not_lt.mpr h)]
    constructor
    · have h1 : (0 : ℤ) ≤ ⌊max (-1) (min 1 s) * 0x7FFF⌋ :=
        Int.le_floor.mpr (by push_cast; nlinarith)
      omega
    · have h1 := Int.floor_le (max (-1) (min 1 s) * 0x7FFF)
      have h2 : max (-1) (min 1 s) * 0x7FFF ≤ 32767 := by nlinarith
      exact_mod_cast h1.trans h2

/-- Unfolding equation of the decoder on a byte pair. -/
theorem pcmDecode16_cons (lo hi : ℕ) (rest : List ℕ) :
    pcmDecode16 (lo :: hi :: rest) =
      (((if ((lo : ℤ) + 256 * (hi : ℤ)) < 32768 then ((lo : ℤ) + 256 * (hi : ℤ))
         else ((lo : ℤ) + 256 * (hi : ℤ)) - 65536 : ℤ) : ℚ) / 32768)
        :: pcmDecode16 rest := rfl

/-- Decoding the two little-endian bytes of an in-range 16-bit value
recovers exactly that value (scaled). -/
theorem int16le_decode (i : ℤ) (h1 : -32768 ≤ i) (h2 : i ≤ 32767) (rest : List ℕ) :
    pcmDecode16 (int16le i ++ rest) = (i : ℚ) / 32768 :: pcmDecode16 rest := by
  rw [show int16le i ++ rest =
      ((i % 65536).toNat % 256) :: ((i % 65536).toNat / 256) :: rest from rfl,
    pcmDecode16_cons]
  have hval : (if ((((i % 65536).toNat % 256 : ℕ) : ℤ) +
        256 * (((i % 65536).toNat / 256 : ℕ) : ℤ)) < 32768
      then ((((i % 65536).toNat % 256 : ℕ) : ℤ) + 256 * (((i % 65536).toNat / 256 : ℕ) : ℤ))
      else ((((i % 65536).toNat % 256 : ℕ) : ℤ) +
        256 * (((i % 65536).toNat / 256 : ℕ) : ℤ)) - 65536) = i := by
    split_ifs with h <;> omega
  rw [hval]

/-- One quantize–decode step moves a sample of [-1, 1] by at most
`1/16384` (two steps of the 1/32768 grid: the floor against the 32767
scale can lose almost two grid steps near full scale). -/
theorem pcm16_sample_err (s : ℚ) (h1 : -1 ≤ s) (h2 : s ≤ 1) :
    |(pcm16Sample s : ℚ) / 32768 - s| ≤ 1/16384 := by
  have hc : max (-1) (min 1 s) = s := by rw [min_eq_right h2, max_eq_right h1]
  rw [pcm16Sample_char, hc]
  rcases lt_or_ge s 0 with hs | hs
  · rw [if_pos hs]
    have hle := Int.le_ceil (s * 0x8000)
    have hlt := Int.ceil_lt_add_one (s * 0x8000)
    rw [abs_le]
    constructor <;> push_cast at hle hlt ⊢ <;> linarith
  · rw [if_neg (not_lt.mpr hs)]
    have hle := Int.floor_le (s * 0x7FFF)
    have hlt := Int.lt_floor_add_one (s * 0x7FFF)
    rw [abs_le]
    constructor <;> push_cast at hle hlt ⊢ <;> linarith

set_option maxRecDepth 4000 in
/-- C4 counterexample: the round-trip error can exceed one quantization
step `1/32768`.  At the in-range sample `65533/65534 ≈ 0.99998`, the
encoder stores `⌊32767 * 65533/65534⌋ = 32766`, the decoder returns
`32766/32768`, and the error is `49150/(65534 * 16384) ≈ 4.58e-5 >
1/32768 ≈ 3.05e-5`. -/
theorem pcm16_roundtrip_counterexample :
    1/32768 < |(pcmDecode16 (floatTo16BitPCM [65533/65534])).headD 0 - 65533/65534| := by
  with_unfolding_all decide

/-- C4 amended: the 16-bit PCM encoder maps each float sample `s` to
`clamp(s, -1, 1)` scaled by 32768 when the clamped value is negative and
by 32767 when it is non-negative (truncating toward zero); and for
every buffer of samples in [-1, 1], encoding to the PCM data and
decoding back yields the original sample count with per-sample error at
most `1/16384` (two quantization steps — one step `1/32768` is exceeded
near positive full scale, see the counterexample). -/
theorem floatTo16BitPCM_roundtrip :
    (∀ s : ℚ, pcm16Sample s =
      if max (-1) (min 1 s) < 0 then ⌈max (-1) (min 1 s) * 0x8000⌉
      else ⌊max (-1) (min 1 s) * 0x7FFF⌋) ∧
    ∀ samples : List ℚ, (∀ s ∈ samples, -1 ≤ s ∧ s ≤ 1) →
      (pcmDecode16 (floatTo16BitPCM samples)).length = samples.length ∧
      ∀ p ∈ (pcmDecode16 (floatTo16BitPCM samples)).zip samples,
        |p.1 - p.2| ≤ 1/16384 := by
  refine ⟨pcm16Sample_char, fun samples => ?_⟩
  induction samples with
  | nil => intro _; exact ⟨rfl, by intro p hp; simp at hp⟩
  | cons s rest ih =>
    intro h
    have hs := h s (List.mem_cons_self s rest)
    have hrest := ih fun x hx => h x (List.mem_cons_of_mem s hx)
    have hdec : pcmDecode16 (floatTo16BitPCM (s :: rest)) =
        (pcm16Sample s : ℚ) / 32768 :: pcmDecode16 (floatTo16BitPCM rest) := by
      rw [show floatTo16BitPCM (s :: rest) =
          int16le (pcm16Sample s) ++ floatTo16BitPCM rest from List.flatMap_cons ..,
        int16le_decode _ (pcm16Sample_range s).1 (pcm16Sample_range s).2]
    rw [hdec]
    constructor
    · rw [List.length_cons, hrest.1, List.length_cons]
    · intro p hp
      rw [List.zip_cons_cons] at hp
      rcases List.mem_cons.mp hp with rfl | hp2
      · exact pcm16_sample_err s hs.1 hs.2
      · exact hrest.2 p hp2

/-- C4 witness: a concrete three-sample buffer round-trips with the
stated count and error bound. -/
theorem floatTo16BitPCM_roundtrip_witness :
    (pcmDecode16 (floatTo16BitPCM [1, -1, 1/2])).length = [(1:ℚ), -1, 1/2].length ∧
    ∀ p ∈ (pcmDecode16 (floatTo16BitPCM [1, -1, 1/2])).zip [(1:ℚ), -1, 1/2],
      |p.1 - p.2| ≤ 1/16384 :=
  floatTo16BitPCM_roundtrip.2 [1, -1, 1/2] (by with_unfolding_all decide)

/-! ### C5: the WAV container layout -/

/-- Interleaving doubles the pair count. -/
theorem interleave_length (L R : List ℚ) (hlen : L.length = R.length) :
    (interleave L R).length = L.length + R.length := by
  have h2 : ∀ l : List (ℚ × ℚ), ((l.map fun p => [p.1, p.2]).flatten).length = 2 * l.length := by
    intro l
    induction l with
    | nil => rfl
    | cons x xs ih =>
      rw [List.map_cons, List.flatten_cons, List.length_append, ih]
      simp only [List.length_cons, List.length_nil]
      ring
  rw [interleave, h2, List.length_zip, ← hlen, min_self]
  omega

/-- C5: for every stereo rendered buffer (equal-length channels), the
lossless artifact is exactly a 44-byte header — "RIFF", riff-chunk
length, "WAVE", "fmt ", fmt-chunk length 16, format tag 1 (PCM), channel
count 2, sample rate, byte rate = sampleRate × blockAlign, block align =
channels × 2 bytes (16-bit mode), bits-per-sample 16, "data", data
length = sampleCount × 2 bytes — followed by the samples interleaved
channel-minor (L,R,L,R,…), every multi-byte field and sample written
little-endian. -/
theorem audioBufferToWav_layout (b : AudioBuffer) (L R : List ℚ)
    (hch : b.channels = [L, R]) (hlen : L.length = R.length) :
    audioBufferToWav b =
      (riffTag ++ u32le (36 + (L.length + R.length) * 2) ++ waveTag ++ fmtTag ++
       u32le 16 ++ u16le 1 ++ u16le 2 ++ u32le b.sampleRate ++
       u32le (b.sampleRate * (2 * 2)) ++ u16le (2 * 2) ++ u16le 16 ++ dataTag ++
       u32le ((L.length + R.length) * 2)) ++ floatTo16BitPCM (interleave L R) ∧
    (riffTag ++ u32le (36 + (L.length + R.length) * 2) ++ waveTag ++ fmtTag ++
       u32le 16 ++ u16le 1 ++ u16le 2 ++ u32le b.sampleRate ++
       u32le (b.sampleRate * (2 * 2)) ++ u16le (2 * 2) ++ u16le 16 ++ dataTag ++
       u32le ((L.length + R.length) * 2)).length = 44 ∧
    interleave L R = (L.zip R).flatMap (fun p => [p.1, p.2]) ∧
    (interleave L R).length = L.length + R.length := by
  have hbind : interleave L R = (L.zip R).flatMap (fun p => [p.1, p.2]) := by
    rw [interleave, List.flatMap]
  have hinter := interleave_length L R hlen
  refine ⟨?_, ?_, hbind, hinter⟩
  · unfold audioBufferToWav
    dsimp only
    rw [hch, show ([L, R].length = 2) from rfl, if_pos rfl,
      show [L, R].getD 0 [] = L from rfl, show [L, R].getD 1 [] = R from rfl]
    unfold encodeWAV
    rw [hinter]
  · simp only [riffTag, waveTag, fmtTag, dataTag, u16le, u32le, List.length_append,
      List.length_cons, List.length_nil]

/-- C5 witness: a concrete one-frame stereo buffer produces exactly the
stated 44-byte header followed by the two interleaved samples. -/
theorem audioBufferToWav_layout_witness :
    audioBufferToWav ⟨8000, [[1], [-1]]⟩ =
      (riffTag ++ u32le (36 + (([(1:ℚ)].length + [(-1:ℚ)].length) * 2)) ++ waveTag ++ fmtTag ++
       u32le 16 ++ u16le 1 ++ u16le 2 ++ u32le (AudioBuffer.mk 8000 [[1], [-1]]).sampleRate ++
       u32le ((AudioBuffer.mk 8000 [[1], [-1]]).sampleRate * (2 * 2)) ++ u16le (2 * 2) ++
       u16le 16 ++ dataTag ++ u32le (([(1:ℚ)].length + [(-1:ℚ)].length) * 2)) ++
      floatTo16BitPCM (interleave [1] [-1]) ∧
    (riffTag ++ u32le (36 + (([(1:ℚ)].length + [(-1:ℚ)].length) * 2)) ++ waveTag ++ fmtTag ++
       u32le 16 ++ u16le 1 ++ u16le 2 ++ u32le (AudioBuffer.mk 8000 [[1], [-1]]).sampleRate ++
       u32le ((AudioBuffer.mk 8000 [[1], [-1]]).sampleRate * (2 * 2)) ++ u16le (2 * 2) ++
       u16le 16 ++ dataTag ++ u32le (([(1:ℚ)].length + [(-1:ℚ)].length) * 2)).length = 44 ∧
    interleave [1] [-1] = ([(1:ℚ)].zip [(-1:ℚ)]).flatMap (fun p => [p.1, p.2]) ∧
    (interleave [1] [-1]).length = [(1:ℚ)].length + [(-1:ℚ)].length :=
  audioBufferToWav_layout ⟨8000, [[1], [-1]]⟩ [1] [-1] rfl rfl

/-! ### C3: solo semantics -/

/-- With id-uniqueness, filtering on the toggled id yields exactly the
one matching track. -/
theorem filter_id_single (id : ℕ) :
    ∀ (tracks : List AudioTrack) (X : AudioTrack),
      (tracks.map AudioTrack.id).Nodup → X ∈ tracks → X.id = id →
      tracks.filter (fun t => t.id == id) = [X]
  | [], X, _, hX, _ => absurd hX (List.not_mem_nil X)
  | t :: ts, X, hnd, hX, hid => by
    rw [List.map_cons, List.nodup_cons] at hnd
    rcases List.mem_cons.mp hX with rfl | hX2
    · rw [List.filter_cons_of_pos (by simp [hid])]
      have hrest : ts.filter (fun t => t.id == id) = [] := by
        rw [List.filter_eq_nil_iff]
        intro u hu hueq
        exact hnd.1 (List.mem_map.mpr ⟨u, hu, by rw [hid]; exact beq_iff_eq.mp hueq⟩)
      rw [hrest]
    · have htid : ¬ t.id = id := fun h =>
        hnd.1 (List.mem_map.mpr ⟨X, hX2, by rw [hid, h]⟩)
      rw [List.filter_cons_of_neg (by simp [htid])]
      exact filter_id_single id ts X hnd.2 hX2 hid

/-- With id-uniqueness, `find?` on the toggled id returns exactly the
one matching track. -/
theorem find_id_single (id : ℕ) :
    ∀ (tracks : List AudioTrack) (X : AudioTrack),
      (tracks.map AudioTrack.id).Nodup → X ∈ tracks → X.id = id →
      tracks.find? (fun t => t.id == id) = some X
  | [], X, _, hX, _ => absurd hX (List.not_mem_nil X)
  | t :: ts, X, hnd, hX, hid => by
    rw [List.map_cons, List.nodup_cons] at hnd
    rcases List.mem_cons.mp hX with rfl | hX2
    · exact List.find?_cons_of_pos _ (by simp [hid])
    · have htid : ¬ t.id = id := fun h =>
        hnd.1 (List.mem_map.mpr ⟨X, hX2, by rw [hid, h]⟩)
      rw [List.find?_cons_of_neg _ (by simp [htid])]
      exact find_id_single id ts X hnd.2 hX2 hid

/-- After a toggle that soloes the (unique, previously unsoloed) track
`X` in an otherwise unsoloed list, the unmuted survivors are exactly
`X`, soloed and unmuted. -/
theorem handleSoloToggle_active (id : ℕ) (tracks : List AudioTrack) (X : AudioTrack)
    (hnd : (tracks.map AudioTrack.id).Nodup) (hX : X ∈ tracks) (hid : X.id = id)
    (hnosolo : ∀ u ∈ tracks, u.isSolo = false) :
    (handleSoloToggle id tracks).filter (fun t => !t.isMuted) =
      [{ X with isSolo := true, isMuted := false }] := by
  have hfind := find_id_single id tracks X hnd hX hid
  have hXsolo : X.isSolo = false := hnosolo X hX
  unfold handleSoloToggle
  rw [hfind]
  dsimp only
  rw [hXsolo]
  simp only [Bool.not_false]
  have hC : ((tracks.map fun t => if t.id == id then { t with isSolo := true } else t).any
      fun t => t.isSolo) = true := by
    rw [List.any_eq_true]
    refine ⟨if X.id == id then { X with isSolo := true } else X,
      List.mem_map.mpr ⟨X, hX, rfl⟩, ?_⟩
    rw [if_pos (beq_iff_eq.mpr hid)]
  simp only [hC, if_true]
  rw [List.map_map, List.filter_map]
  have hpred : ∀ t ∈ tracks,
      ((fun t => !t.isMuted) ∘
        ((fun t => { t with isMuted := !t.isSolo }) ∘
          fun t => if t.id == id then { t with isSolo := true } else t)) t = (t.id == id) := by
    intro t ht
    simp only [Function.comp]
    rw [Bool.not_not]
    by_cases h : t.id = id
    · rw [if_pos (beq_iff_eq.mpr h), beq_iff_eq.mpr h]
    · rw [if_neg (by simpa using h), hnosolo t ht]
      exact (beq_eq_false_iff_ne.mpr h).symm
  rw [List.filter_congr hpred, filter_id_single id tracks X hnd hX hid,
    List.map_cons, List.map_nil]
  simp only [Function.comp]
  rw [if_pos (beq_iff_eq.mpr hid)]
  rfl

/-- `bounceRender` on a list whose only unmuted track is `Y` (decoded as
`b`) renders `[(b, Y.volume)]` at the length determined by `b`. -/
theorem bounceRender_single (tracks' : List AudioTrack) (Y : AudioTrack) (b : AudioBuffer)
    (mv : ℚ) (hf : tracks'.filter (fun t => !t.isMuted) = [Y]) (hb : Y.audioBuffer = some b) :
    bounceRender tracks' mv =
      .ok (renderMix [(b, Y.volume)] mv ((ratCeil (b.duration * 44100)).toNat)) := by
  unfold bounceRender
  rw [hf]
  rw [if_neg (fun h => nomatch h)]
  dsimp only
  rw [show ([Y].filterMap fun t => t.audioBuffer.map fun b => (b, t.volume)) =
      [(b, Y.volume)] by simp [hb]]
  rw [show ([(b, Y.volume)].foldl (fun m p => if p.1.duration > m then p.1.duration else m) 0)
      = b.duration by
    rw [List.foldl_cons, List.foldl_nil]
    rcases lt_or_eq_of_le b.duration_nonneg with h | h
    · rw [if_pos h]
    · rw [if_neg (by rw [← h]; exact lt_irrefl 0), ← h]]

/-- The rendered single-source mix, per channel and frame. -/
theorem renderMix_single_sample (b : AudioBuffer) (vol mv : ℚ) (len : ℕ) :
    (renderMix [(b, vol)] mv len).channels.length = 2 ∧
    ∀ c < 2, ((renderMix [(b, vol)] mv len).channels.getD c []).length = len ∧
      ∀ n < len, ((renderMix [(b, vol)] mv len).channels.getD c []).getD n 0 =
        mv * (vol * bufferSampleAt b c n) := by
  constructor
  · rfl
  · intro c hc
    have hch : (renderMix [(b, vol)] mv len).channels.getD c [] =
        (List.range len).map fun n => mv * (0 + vol * bufferSampleAt b c n) := by
      interval_cases c <;> rfl
    rw [hch]
    refine ⟨by rw [List.length_map, List.length_range], fun n hn => ?_⟩
    rw [List.getD_eq_getElem _ _ (by rwa [List.length_map, List.length_range]),
      List.getElem_map, List.getElem_range, zero_add]

/-- C3: after any solo toggle on a track list containing the toggled id,
if any track is soloed in the result every track's stored mute flag is
overwritten to the negation of its solo flag, and if none is soloed
every mute flag is cleared; consequently, exporting after soloing
exactly one (previously unsoloed, uniquely identified, decoded) track
produces a mix equal to that track alone scaled by its own gain and the
master gain — every other track contributes nothing. -/
theorem handleSoloToggle_spec :
    (∀ (id : ℕ) (tracks : List AudioTrack), (∃ t ∈ tracks, t.id = id) →
      (((handleSoloToggle id tracks).any fun t => t.isSolo) = true →
        ∀ u ∈ handleSoloToggle id tracks, u.isMuted = !u.isSolo) ∧
      (((handleSoloToggle id tracks).any fun t => t.isSolo) = false →
        ∀ u ∈ handleSoloToggle id tracks, u.isMuted = false)) ∧
    (∀ (id : ℕ) (tracks : List AudioTrack) (X : AudioTrack) (b : AudioBuffer) (mv : ℚ),
      (tracks.map AudioTrack.id).Nodup → X ∈ tracks → X.id = id →
      (∀ u ∈ tracks, u.isSolo = false) → X.audioBuffer = some b →
      ∃ mix, bounceRender (handleSoloToggle id tracks) mv = .ok mix ∧
        mix.channels.length = 2 ∧
        ∀ c < 2, (mix.channels.getD c []).length = (⌈b.duration * 44100⌉).toNat ∧
          ∀ n < (⌈b.duration * 44100⌉).toNat,
            (mix.channels.getD c []).getD n 0 = mv * (X.volume * bufferSampleAt b c n)) := by
  constructor
  · intro id tracks hex
    obtain ⟨t0, ht0, hid0⟩ := hex
    obtain ⟨tt, htt⟩ := Option.isSome_iff_exists.mp
      (show (tracks.find? fun t => t.id == id).isSome from
        List.find?_isSome.mpr ⟨t0, ht0, by rw [hid0]; exact beq_self_eq_true id⟩)
    have heq : handleSoloToggle id tracks =
        (tracks.map fun t => if t.id == id then { t with isSolo := !tt.isSolo } else t).map
          (fun t =>
            if ((tracks.map fun t => if t.id == id then { t with isSolo := !tt.isSolo } else t).any
                fun t => t.isSolo)
            then { t with isMuted := !t.isSolo } else { t with isMuted := false }) := by
      unfold handleSoloToggle
      rw [htt]
    have hanyeq : ((handleSoloToggle id tracks).any fun t => t.isSolo) =
        ((tracks.map fun t => if t.id == id then { t with isSolo := !tt.isSolo } else t).any
          fun t => t.isSolo) := by
      rw [heq, List.any_map]
      congr 1
      funext t
      simp only [Function.comp]
      split <;> rfl
    constructor
    · intro hany u hu
      rw [heq] at hu
      rw [hanyeq] at hany
      obtain ⟨v, _, rfl⟩ := List.mem_map.mp hu
      rw [if_pos hany]
    · intro hany u hu
      rw [heq] at hu
      rw [hanyeq] at hany
      obtain ⟨v, _, rfl⟩ := List.mem_map.mp hu
      rw [if_neg (by rw [hany]; exact Bool.false_ne_true)]
  · intro id tracks X b mv hnd hX hid hnosolo hbuf
    have hactive := handleSoloToggle_active id tracks X hnd hX hid hnosolo
    have hrender := bounceRender_single (handleSoloToggle id tracks)
      { X with isSolo := true, isMuted := false } b mv hactive hbuf
    have hsample := renderMix_single_sample b X.volume mv
      ((ratCeil (b.duration * 44100)).toNat)
    rw [ratCeil_eq] at hrender hsample
    exact ⟨_, hrender, hsample.1, fun c hc =>
      ⟨(hsample.2 c hc).1, fun n hn => (hsample.2 c hc).2 n hn⟩⟩

/-- C3 witness: toggling solo on track 1 of the concrete session mutes
exactly track 2 and exports track 1 alone, scaled by its gain and the
master gain. -/
theorem handleSoloToggle_spec_witness :
    ((((handleSoloToggle 1 c3Tracks).any fun t => t.isSolo) = true →
        ∀ u ∈ handleSoloToggle 1 c3Tracks, u.isMuted = !u.isSolo) ∧
      (((handleSoloToggle 1 c3Tracks).any fun t => t.isSolo) = false →
        ∀ u ∈ handleSoloToggle 1 c3Tracks, u.isMuted = false)) ∧
    (∃ mix, bounceRender (handleSoloToggle 1 c3Tracks) (3/2) = .ok mix ∧
      mix.channels.length = 2 ∧
      ∀ c < 2, (mix.channels.getD c []).length =
          (⌈(AudioBuffer.mk 44100 [[1, -1]]).duration * 44100⌉).toNat ∧
        ∀ n < (⌈(AudioBuffer.mk 44100 [[1, -1]]).duration * 44100⌉).toNat,
          (mix.channels.getD c []).getD n 0 =
            (3/2) * ((1/2) * bufferSampleAt ⟨44100, [[1, -1]]⟩ c n)) :=
  ⟨handleSoloToggle_spec.1 1 c3Tracks
      ⟨⟨1, 1/2, false, false, 2/44100, some ⟨44100, [[1, -1]]⟩⟩,
        by unfold c3Tracks; exact List.mem_cons_self _ _, rfl⟩,
    handleSoloToggle_spec.2 1 c3Tracks
      ⟨1, 1/2, false, false, 2/44100, some ⟨44100, [[1, -1]]⟩⟩ ⟨44100, [[1, -1]]⟩ (3/2)
      (by with_unfolding_all decide)
      (by unfold c3Tracks; exact List.mem_cons_self _ _) rfl
      (by
        intro u hu
        unfold c3Tracks at hu
        rcases List.mem_cons.mp hu with rfl | hu2
        · rfl
        · rcases List.mem_cons.mp hu2 with rfl | hu3
          · rfl
          · exact absurd hu3 (List.not_mem_nil u))
      rfl⟩

/-! ### C7: the dB round trip -/

/-- Unfolding equation of `commitDbChange` on a committed number. -/
theorem commitDbChange_some (db : ℝ) :
    commitDbChange (some db) = max 0 (min 1 ((10 : ℝ) ^ (min db 0 / 20))) := rfl

/-- Unfolding equation of `commitDbChange` on the `'-inf'` sentinel. -/
theorem commitDbChange_none : commitDbChange none = 0 := rfl

/-- `logb 10 (4/5)` is trapped in `[-39/400, -37/400)`, so the displayed
value rounds to -1.9 dB. -/
theorem logb_fourFifths_bounds :
    -(39/400 : ℝ) ≤ Real.logb 10 (4/5) ∧ Real.logb 10 (4/5) < -(37/400 : ℝ) := by
  have hb10 : (1:ℝ) < 10 := by norm_num
  have hg : (0:ℝ) < 4/5 := by norm_num
  constructor
  · rw [Real.le_logb_iff_rpow_le hb10 hg]
    have hpow : ((10:ℝ) ^ (-(39/400) : ℝ)) ^ (400:ℕ) = (10:ℝ) ^ (-39 : ℤ) := by
      rw [← Real.rpow_natCast ((10:ℝ) ^ (-(39/400):ℝ)) 400,
        ← Real.rpow_mul (by norm_num : (0:ℝ) ≤ 10),
        show (-(39/400) * ((400:ℕ):ℝ) : ℝ) = ((-39 : ℤ) : ℝ) by push_cast; ring,
        Real.rpow_intCast]
    have h400 : ((10:ℝ) ^ (-(39/400) : ℝ)) ^ (400:ℕ) ≤ (4/5 : ℝ) ^ (400:ℕ) := by
      rw [hpow]
      norm_num
    exact le_of_pow_le_pow_left₀ (by norm_num) (by norm_num : (0:ℝ) ≤ 4/5) h400
  · rw [Real.logb_lt_iff_lt_rpow hb10 hg]
    have hpow : ((10:ℝ) ^ (-(37/400) : ℝ)) ^ (400:ℕ) = (10:ℝ) ^ (-37 : ℤ) := by
      rw [← Real.rpow_natCast ((10:ℝ) ^ (-(37/400):ℝ)) 400,
        ← Real.rpow_mul (by norm_num : (0:ℝ) ≤ 10),
        show (-(37/400) * ((400:ℕ):ℝ) : ℝ) = ((-37 : ℤ) : ℝ) by push_cast; ring,
        Real.rpow_intCast]
    have h400 : (4/5 : ℝ) ^ (400:ℕ) < ((10:ℝ) ^ (-(37/400) : ℝ)) ^ (400:ℕ) := by
      rw [hpow]
      norm_num
    exact lt_of_pow_lt_pow_left₀ 400 (by positivity) h400

/-- C7 counterexample: the displayed-dB round trip misses by more than
1e-3.  For `g = 0.8`, `20·log10(0.8) ≈ -1.938` displays as "-1.9", and
committing -1.9 dB yields `10^(-0.095) ≈ 0.8035`, an error above
`3.5e-3`. -/
theorem dbRoundTrip_counterexample :
    1/1000 < |commitDbChange (getDbValue (4/5)) - 4/5| := by
  have hb10 : (1:ℝ) < 10 := by norm_num
  have hL := logb_fourFifths_bounds
  have hround : round ((20 * Real.logb 10 (4/5)) * 10) = -19 := by
    rw [round_eq, Int.floor_eq_iff]
    constructor
    · push_cast
      nlinarith [hL.1]
    · push_cast
      nlinarith [hL.2]
  have hget : getDbValue (4/5) = some (((-19 : ℤ) : ℝ) / 10) := by
    unfold getDbValue
    rw [if_neg (by norm_num), hround]
  rw [hget, commitDbChange_some]
  have hmin : min (((-19 : ℤ) : ℝ) / 10) 0 = ((-19 : ℤ) : ℝ) / 10 :=
    min_eq_left (by norm_num)
  rw [hmin, show ((((-19 : ℤ) : ℝ) / 10) / 20 : ℝ) = -(19/200 : ℝ) by push_cast; ring]
  set v := (10 : ℝ) ^ (-(19/200 : ℝ)) with hv
  have hv0 : 0 < v := Real.rpow_pos_of_pos (by norm_num) _
  have hv1 : v < 1 := Real.rpow_lt_one_of_one_lt_of_neg hb10 (by norm_num)
  have hv801 : (801/1000 : ℝ) < v := by
    have hpow : v ^ (200:ℕ) = (10:ℝ) ^ (-19 : ℤ) := by
      rw [hv, ← Real.rpow_natCast ((10:ℝ) ^ (-(19/200):ℝ)) 200,
        ← Real.rpow_mul (by norm_num : (0:ℝ) ≤ 10),
        show (-(19/200) * ((200:ℕ):ℝ) : ℝ) = ((-19 : ℤ) : ℝ) by push_cast; ring,
        Real.rpow_intCast]
    have h200 : (801/1000 : ℝ) ^ (200:ℕ) < v ^ (200:ℕ) := by
      rw [hpow]
      norm_num
    exact lt_of_pow_lt_pow_left₀ 200 hv0.le h200
  rw [min_eq_right hv1.le, max_eq_right hv0.le,
    abs_of_pos (by linarith : (0:ℝ) < v - 4/5)]
  linarith

/-- C7 amended: committing the displayed dB value back returns the gain
within 6e-3 (not 1e-3: the 0.1 dB display quantization alone moves a
near-unity gain by up to `1 - 10^(-0.05/20) ≈ 5.7e-3`); gain 0 maps to
the `'-inf'` sentinel and committing `'-inf'` yields exactly 0. -/
theorem dbRoundTrip_amended :
    (∀ g : ℝ, 0 < g → g ≤ 1 → |commitDbChange (getDbValue g) - g| ≤ 6/1000) ∧
    getDbValue 0 = none ∧ commitDbChange none = 0 := by
  have hb10 : (1:ℝ) < 10 := by norm_num
  have h10a : (10:ℝ) ^ ((1:ℝ)/400) ≤ 1006/1000 := by
    have hpow : ((10:ℝ) ^ ((1:ℝ)/400)) ^ (400:ℕ) = 10 := by
      rw [← Real.rpow_natCast ((10:ℝ) ^ ((1:ℝ)/400)) 400,
        ← Real.rpow_mul (by norm_num : (0:ℝ) ≤ 10),
        show ((1:ℝ)/400 * ((400:ℕ):ℝ) : ℝ) = 1 by push_cast; ring,
        Real.rpow_one]
    have h400 : ((10:ℝ) ^ ((1:ℝ)/400)) ^ (400:ℕ) ≤ (1006/1000 : ℝ) ^ (400:ℕ) := by
      rw [hpow]
      norm_num
    exact le_of_pow_le_pow_left₀ (by norm_num) (by norm_num : (0:ℝ) ≤ 1006/1000) h400
  have h10b : (994/1000 : ℝ) ≤ (10:ℝ) ^ (-(1:ℝ)/400) := by
    have hpow : ((10:ℝ) ^ (-(1:ℝ)/400)) ^ (400:ℕ) = (10:ℝ) ^ (-1 : ℤ) := by
      rw [← Real.rpow_natCast ((10:ℝ) ^ (-(1:ℝ)/400)) 400,
        ← Real.rpow_mul (by norm_num : (0:ℝ) ≤ 10),
        show (-(1:ℝ)/400 * ((400:ℕ):ℝ) : ℝ) = ((-1 : ℤ) : ℝ) by push_cast; ring,
        Real.rpow_intCast]
    have h400 : (994/1000 : ℝ) ^ (400:ℕ) ≤ ((10:ℝ) ^ (-(1:ℝ)/400)) ^ (400:ℕ) := by
      rw [hpow]
      norm_num
    exact le_of_pow_le_pow_left₀ (by norm_num)
      (Real.rpow_pos_of_pos (by norm_num) _).le h400
  refine ⟨fun g hg0 hg1 => ?_, by unfold getDbValue; rw [if_pos (by norm_num)],
    commitDbChange_none⟩
  by_cases hsmall : g ≤ 1/10000
  · unfold getDbValue
    rw [if_pos hsmall, commitDbChange_none, abs_of_nonpos (by linarith)]
    linarith
  · unfold getDbValue
    rw [if_neg hsmall]
    rw [commitDbChange_some]
    set d : ℝ := 20 * Real.logb 10 g with hd
    set r : ℝ := ((round (d * 10) : ℤ) : ℝ) / 10 with hr
    have hd0 : d ≤ 0 := by
      have := Real.logb_nonpos hb10 hg0.le hg1
      rw [hd]
      linarith
    have hrd : |r - d| ≤ 1/20 := by
      have h1 := abs_sub_round (d * 10)
      rw [abs_sub_comm] at h1
      rw [hr]
      rw [show ((round (d * 10) : ℤ) : ℝ) / 10 - d = (((round (d * 10) : ℤ) : ℝ) - d * 10) / 10
        by ring, abs_div]
      rw [show |(10:ℝ)| = 10 by norm_num]
      linarith [h1]
    set c : ℝ := min r 0 with hc
    have hcd : |c - d| ≤ 1/20 := by
      rcases le_or_lt r 0 with h | h
      · rw [hc, min_eq_left h]
        exact hrd
      · rw [hc, min_eq_right h.le]
        rw [abs_le] at hrd ⊢
        constructor <;> nlinarith [hrd.1, hrd.2]
    have hc0 : c ≤ 0 := min_le_right _ _
    have hgd : (10:ℝ) ^ (d / 20) = g := by
      rw [hd, show (20 * Real.logb 10 g) / 20 = Real.logb 10 g by ring]
      exact Real.rpow_logb (by norm_num) (by norm_num) hg0
    set w : ℝ := (10:ℝ) ^ ((c - d) / 20) with hw
    have hvw : (10:ℝ) ^ (c / 20) = g * w := by
      rw [show c / 20 = d / 20 + (c - d) / 20 by ring,
        Real.rpow_add (by norm_num : (0:ℝ) < 10), hgd, hw]
    have hwle : w ≤ 1006/1000 := by
      refine le_trans ?_ h10a
      rw [hw]
      rw [Real.rpow_le_rpow_left_iff hb10]
      rw [abs_le] at hcd
      linarith [hcd.2]
    have hwge : (994/1000 : ℝ) ≤ w := by
      refine le_trans h10b ?_
      rw [hw]
      rw [Real.rpow_le_rpow_left_iff hb10]
      rw [abs_le] at hcd
      linarith [hcd.1]
    have hv0 : 0 < (10:ℝ) ^ (c / 20) := Real.rpow_pos_of_pos (by norm_num) _
    have hv1 : (10:ℝ) ^ (c / 20) ≤ 1 :=
      Real.rpow_le_one_of_one_le_of_nonpos (by norm_num) (by linarith)
    rw [min_eq_right hv1, max_eq_right hv0.le, hvw, abs_le]
    constructor
    · rcases le_or_lt w 1 with h | h
      · nlinarith
      · nlinarith
    · rcases le_or_lt w 1 with h | h
      · nlinarith
      · nlinarith

/-- C7 witness: the round trip at unit gain stays within the amended
tolerance, and the zero-gain sentinel commits exactly 0. -/
theorem dbRoundTrip_amended_witness :
    |commitDbChange (getDbValue 1) - 1| ≤ 6/1000 ∧
    getDbValue 0 = none ∧ commitDbChange none = 0 :=
  ⟨dbRoundTrip_amended.1 1 one_pos le_rfl, dbRoundTrip_amended.2⟩

/-- C8 witness: a concrete tick (val 1/4, peak 1/2), a concrete 3-tick
silent decay from peak 1, and a concrete silent window. -/
theorem peakStep_spec_witness :
    ((peakStep (1/4) (1/2) =
        if (1/2 : ℚ) ≤ min ((1/4) * 4) 1 then min ((1/4) * 4) 1
        else max (1/2 - 5/1000) 0) ∧
      (min ((1/4 : ℚ) * 4) 1 < 1/2 → peakStep (1/4) (1/2) ≤ 1/2)) ∧
    (peakStep 0)^[3] 1 = max (1 - ((3:ℕ):ℚ) * (5/1000)) 0 ∧
    getRMSSq (List.replicate 4 128) = 0 :=
  ⟨peakStep_spec.1 (1/4) (1/2) (by norm_num) (by norm_num),
    peakStep_spec.2.1 1 3 (by norm_num), peakStep_spec.2.2 4⟩

end Bouncer
